import Mathlib

/-!
Verification of the scholar_summary pipeline.

The TypeScript sources are shallowly embedded over `Str := List Char`:

* `src/utils/scholarHelper.ts`  — `searchArticles` (with its keyword-broadening
  retry), `searchByInterests`, `searchWithAdvancedQuery`;
* `src/utils/cohereHelper.ts`   — constructor credential check,
  `generateSearchQueries`, `parseQueriesFromResponse`;
* `src/utils/llmHelper.ts`      — `summarizeArticle` (title extraction,
  response-shape extraction chain, default-summary guard, error path);
* `src/app/page.tsx`            — `generateArticle` pipeline orchestration;
* `src/app/api/*/route.ts`      — the HTTP route wrappers.

Network calls are modelled as explicit oracle functions (`Except` results:
`.error` models a thrown/failed request, `.ok` a parsed JSON body).
JavaScript strings are modelled as `List Char`; the JS whitespace class and
`toLowerCase` are modelled on their ASCII fragment.
-/

namespace ScholarSummary

abbrev Str := List Char

/-- Shorthand: the character list of a Lean string literal. -/
def str (s : String) : Str := s.data

/-- ASCII fragment of the JS regex class `\s` (space, tab, LF, CR, VT, FF). -/
def isWsChar (c : Char) : Bool :=
  c = ' ' || c = Char.ofNat 9 || c = Char.ofNat 10 ||
  c = Char.ofNat 13 || c = Char.ofNat 11 || c = Char.ofNat 12

/-- The characters removed by `query.replace(/['"]/g, '')`. -/
def isQuoteChar (c : Char) : Bool := c = Char.ofNat 39 || c = Char.ofNat 34

/-- JS regex class `\d`. -/
def isDigitChar (c : Char) : Bool := '0' ≤ c && c ≤ '9'

/-- `String.prototype.trimStart` (ASCII whitespace fragment). -/
def trimL (s : Str) : Str := s.dropWhile isWsChar

/-- `String.prototype.trimEnd` (ASCII whitespace fragment). -/
def trimR (s : Str) : Str := (s.reverse.dropWhile isWsChar).reverse

/-- `String.prototype.trim` (ASCII whitespace fragment). -/
def trimStr (s : Str) : Str := trimR (trimL s)

/-- `Array.prototype.join(sep)`. -/
def joinWith (sep : Str) : List Str → Str
  | [] => []
  | [t] => t
  | t :: ts => t ++ sep ++ joinWith sep ts

/-- `keywords.join(' ')`. -/
def joinSp (l : List Str) : Str := joinWith [' '] l

/-- Prepend a character to the first part of a split result. -/
def consHead (c : Char) : List Str → List Str
  | [] => [[c]]
  | t :: ts => (c :: t) :: ts

/-- Worker for `splitWs`.  The flag records whether the previous character
    belonged to a whitespace run (so that a run of several whitespace
    characters produces a single cut, as with the regex `\s+`). -/
def splitWsGo : Bool → Str → List Str
  | _, [] => [[]]
  | inRun, c :: r =>
    if isWsChar c then
      if inRun then splitWsGo true r else [] :: splitWsGo true r
    else consHead c (splitWsGo false r)

/-- `str.split(/\s+/)`: split on maximal whitespace runs; a leading run
    contributes an initial empty part, a trailing run a trailing empty part,
    and `""` splits to `[""]`. -/
def splitWs (s : Str) : List Str := splitWsGo false s

/-- `query.replace(/['"]/g, '')`. -/
def stripQuotes (s : Str) : Str := s.filter (fun c => !isQuoteChar c)

/-- The keyword derivation of `searchArticles`
    (scholarHelper.ts lines 127–131): strip quotes, split on whitespace,
    keep tokens longer than 3 characters, take at most 3. -/
def broadenTokens (q : Str) : List Str :=
  ((splitWs (stripQuotes q)).filter (fun w => 3 < w.length)).take 3

/-- The broadened query string `keywords.join(' ')`. -/
def broadenStr (q : Str) : Str := joinSp (broadenTokens q)

/-! ### Lemmas about the split / join string model

These support the idempotence of the keyword-broadening transformation,
which in turn bounds the recursion of `searchArticles`. -/

theorem splitWsGo_ne_nil (b : Bool) (s : Str) : splitWsGo b s ≠ [] := by
  induction s generalizing b with
  | nil => simp [splitWsGo]
  | cons c r ih =>
    by_cases h : isWsChar c
    · cases b <;> simp [splitWsGo, h]
      exact ih true
    · simp only [splitWsGo, h, if_neg, Bool.false_eq_true, ↓reduceIte]
      unfold consHead
      cases splitWsGo false r <;> simp

theorem cons_headD_tail (l : List Str) (h : l ≠ []) : l = l.headD [] :: l.tail := by
  cases l with
  | nil => exact absurd rfl h
  | cons a t => rfl

theorem splitWsGo_token (t : Str) (z : Str) (ht : ∀ c ∈ t, isWsChar c = false) :
    splitWsGo false (t ++ z) =
      (t ++ (splitWsGo false z).headD []) :: (splitWsGo false z).tail := by
  induction t with
  | nil =>
    simpa using cons_headD_tail _ (splitWsGo_ne_nil false z)
  | cons c t ih =>
    have hc : isWsChar c = false := ht c (List.mem_cons_self c t)
    have ht' : ∀ c ∈ t, isWsChar c = false := fun c hc => ht c (List.mem_cons_of_mem _ hc)
    have step : splitWsGo false ((c :: t) ++ z) = consHead c (splitWsGo false (t ++ z)) := by
      simp [splitWsGo, hc]
    rw [step, ih ht']
    rfl

theorem splitWsGo_true_of_head (c : Char) (r : Str) (hc : isWsChar c = false) :
    splitWsGo true (c :: r) = splitWsGo false (c :: r) := by
  simp [splitWsGo, hc]

/-- Splitting the space-join of nonempty whitespace-free tokens recovers
    exactly the tokens. -/
theorem splitWs_joinSp (l : List Str)
    (hl : ∀ t ∈ l, t ≠ [] ∧ ∀ c ∈ t, isWsChar c = false) (hne : l ≠ []) :
    splitWs (joinSp l) = l := by
  induction l with
  | nil => exact absurd rfl hne
  | cons t ts ih =>
    have htne : t ≠ [] := (hl t (List.mem_cons_self t ts)).1
    have htws : ∀ c ∈ t, isWsChar c = false := (hl t (List.mem_cons_self t ts)).2
    cases ts with
    | nil =>
      show splitWsGo false (joinWith [' '] [t]) = [t]
      have : joinWith [' '] [t] = t ++ [] := by simp [joinWith]
      rw [this, splitWsGo_token t [] htws]
      simp [splitWsGo]
    | cons t' ts' =>
      have hl' : ∀ u ∈ t' :: ts', u ≠ [] ∧ ∀ c ∈ u, isWsChar c = false :=
        fun u hu => hl u (List.mem_cons_of_mem _ hu)
      have ht'ne : t' ≠ [] := (hl' t' (List.mem_cons_self t' ts')).1
      have ht'ws : ∀ c ∈ t', isWsChar c = false := (hl' t' (List.mem_cons_self t' ts')).2
      have hjoin : joinSp (t :: t' :: ts') = t ++ (' ' :: joinSp (t' :: ts')) := by
        simp [joinSp, joinWith]
      show splitWs (joinSp (t :: t' :: ts')) = t :: t' :: ts'
      rw [show splitWs (joinSp (t :: t' :: ts')) =
            splitWsGo false (joinSp (t :: t' :: ts')) from rfl,
        hjoin, splitWsGo_token t _ htws]
      have hsp : isWsChar ' ' = true := by decide
      have hgo : splitWsGo false (' ' :: joinSp (t' :: ts')) =
          [] :: splitWsGo true (joinSp (t' :: ts')) := by
        simp [splitWsGo, hsp]
      -- the tail join starts with the first character of `t'`, a non-whitespace char
      obtain ⟨c, rest, hcr⟩ : ∃ c rest, joinSp (t' :: ts') = c :: rest ∧ c ∈ t' := by
        cases t' with
        | nil => exact absurd rfl ht'ne
        | cons c tt =>
          cases ts' with
          | nil => exact ⟨c, tt, by simp [joinSp, joinWith], List.mem_cons_self _ _⟩
          | cons u us =>
            exact ⟨c, tt ++ ' ' :: joinSp (u :: us), by simp [joinSp, joinWith],
              List.mem_cons_self _ _⟩
      have hctrue : splitWsGo true (joinSp (t' :: ts')) = splitWsGo false (joinSp (t' :: ts')) := by
        rw [hcr.1]
        exact splitWsGo_true_of_head c rest (ht'ws c hcr.2)
      rw [hgo, hctrue]
      have := ih hl' (by simp)
      rw [show splitWs (joinSp (t' :: ts')) = splitWsGo false (joinSp (t' :: ts')) from rfl] at this
      rw [this]
      simp

theorem stripQuotes_eq_self (s : Str) (h : ∀ c ∈ s, isQuoteChar c = false) :
    stripQuotes s = s := by
  unfold stripQuotes
  rw [List.filter_eq_self]
  intro c hc
  simp [h c hc]

theorem mem_joinSp (l : List Str) (c : Char) (hc : c ∈ joinSp l) :
    c = ' ' ∨ ∃ t ∈ l, c ∈ t := by
  induction l with
  | nil => simp [joinSp, joinWith] at hc
  | cons t ts ih =>
    cases ts with
    | nil =>
      simp only [joinSp, joinWith] at hc
      exact Or.inr ⟨t, List.mem_cons_self _ _, hc⟩
    | cons u us =>
      simp only [joinSp, joinWith] at hc
      rcases List.mem_append.mp hc with h1 | h2
      · rcases List.mem_append.mp h1 with h1a | h1b
        · exact Or.inr ⟨t, List.mem_cons_self _ _, h1a⟩
        · simp at h1b; exact Or.inl h1b
      · rcases ih h2 with h | ⟨v, hv, hcv⟩
        · exact Or.inl h
        · exact Or.inr ⟨v, List.mem_cons_of_mem _ hv, hcv⟩

theorem splitWsGo_chars_ws (b : Bool) (s : Str) :
    ∀ t ∈ splitWsGo b s, ∀ c ∈ t, isWsChar c = false := by
  induction s generalizing b with
  | nil => intro t ht c hc; simp [splitWsGo] at ht; subst ht; simp at hc
  | cons a r ih =>
    intro t ht c hc
    by_cases ha : isWsChar a
    · cases b with
      | true =>
        simp only [splitWsGo, ha, if_pos, ↓reduceIte] at ht
        exact ih true t ht c hc
      | false =>
        simp only [splitWsGo, ha, if_pos, ↓reduceIte] at ht
        rcases List.mem_cons.mp ht with h | h
        · subst h; simp at hc
        · exact ih true t h c hc
    · simp only [splitWsGo, ha, Bool.false_eq_true, ↓reduceIte] at ht
      rcases hgo : splitWsGo false r with _ | ⟨h0, hs⟩
      · exact absurd hgo (splitWsGo_ne_nil false r)
      · rw [hgo] at ht
        unfold consHead at ht
        rcases List.mem_cons.mp ht with h | h
        · subst h
          rcases List.mem_cons.mp hc with h | h
          · subst h; simpa using ha
          · exact ih false h0 (hgo ▸ List.mem_cons_self _ _) c h
        · exact ih false t (hgo ▸ List.mem_cons_of_mem _ h) c hc

theorem splitWsGo_chars_mem (b : Bool) (s : Str) :
    ∀ t ∈ splitWsGo b s, ∀ c ∈ t, c ∈ s := by
  induction s generalizing b with
  | nil => intro t ht c hc; simp [splitWsGo] at ht; subst ht; simp at hc
  | cons a r ih =>
    intro t ht c hc
    by_cases ha : isWsChar a
    · cases b with
      | true =>
        simp only [splitWsGo, ha, if_pos, ↓reduceIte] at ht
        exact List.mem_cons_of_mem _ (ih true t ht c hc)
      | false =>
        simp only [splitWsGo, ha, if_pos, ↓reduceIte] at ht
        rcases List.mem_cons.mp ht with h | h
        · subst h; simp at hc
        · exact List.mem_cons_of_mem _ (ih true t h c hc)
    · simp only [splitWsGo, ha, Bool.false_eq_true, ↓reduceIte] at ht
      rcases hgo : splitWsGo false r with _ | ⟨h0, hs⟩
      · exact absurd hgo (splitWsGo_ne_nil false r)
      · rw [hgo] at ht
        unfold consHead at ht
        rcases List.mem_cons.mp ht with h | h
        · subst h
          rcases List.mem_cons.mp hc with h | h
          · subst h; exact List.mem_cons_self _ _
          · exact List.mem_cons_of_mem _
              (ih false h0 (hgo ▸ List.mem_cons_self _ _) c h)
        · exact List.mem_cons_of_mem _
            (ih false t (hgo ▸ List.mem_cons_of_mem _ h) c hc)

theorem broadenTokens_mem (q : Str) (t : Str) (ht : t ∈ broadenTokens q) :
    3 < t.length ∧ (∀ c ∈ t, isWsChar c = false) ∧ ∀ c ∈ t, isQuoteChar c = false := by
  have h1 : t ∈ (splitWs (stripQuotes q)).filter (fun w => 3 < w.length) :=
    List.mem_of_mem_take ht
  have h2 := List.mem_filter.mp h1
  refine ⟨by simpa using h2.2, fun c hc => splitWsGo_chars_ws false _ t h2.1 c hc, ?_⟩
  intro c hc
  have hmem : c ∈ stripQuotes q := splitWsGo_chars_mem false _ t h2.1 c hc
  unfold stripQuotes at hmem
  have := (List.mem_filter.mp hmem).2
  simpa using this

/-- The keyword-broadening token derivation is idempotent. -/
theorem broadenTokens_idem (q : Str) :
    broadenTokens (broadenStr q) = broadenTokens q := by
  rcases hts : broadenTokens q with _ | ⟨t, ts⟩
  · have : broadenStr q = [] := by rw [broadenStr, hts]; rfl
    rw [this]; decide
  · have hmem : ∀ u ∈ broadenTokens q,
        3 < u.length ∧ (∀ c ∈ u, isWsChar c = false) ∧ ∀ c ∈ u, isQuoteChar c = false :=
      fun u hu => broadenTokens_mem q u hu
    rw [hts] at hmem
    have hstrip : stripQuotes (broadenStr q) = broadenStr q := by
      apply stripQuotes_eq_self
      intro c hc
      rw [broadenStr, hts] at hc
      rcases mem_joinSp _ c hc with h | ⟨u, hu, hcu⟩
      · subst h; decide
      · exact (hmem u hu).2.2 c hcu
    have hsplit : splitWs (broadenStr q) = t :: ts := by
      rw [broadenStr, hts]
      exact splitWs_joinSp _
        (fun u hu => ⟨by
            have := (hmem u hu).1
            intro hnil; rw [hnil] at this; simp at this,
          (hmem u hu).2.1⟩) (by simp)
    have hfilter : (t :: ts).filter (fun w => 3 < w.length) = t :: ts := by
      rw [List.filter_eq_self]
      intro u hu
      simpa using (hmem u hu).1
    have hlen : (t :: ts).length ≤ 3 := by
      have : broadenTokens q = ((splitWs (stripQuotes q)).filter
          (fun w => 3 < w.length)).take 3 := rfl
      rw [hts] at this
      have h3 := congrArg List.length this
      simp only [List.length_take] at h3
      omega
    rw [broadenTokens, hstrip, hsplit, hfilter, List.take_of_length_le hlen]

/-- The broadened query derivation is idempotent as a string transformation. -/
theorem broadenStr_idem (q : Str) : broadenStr (broadenStr q) = broadenStr q := by
  show joinSp (broadenTokens (broadenStr q)) = broadenStr q
  rw [broadenTokens_idem q]
  rfl

/-! ### ScholarHelper (src/utils/scholarHelper.ts)

`searchArticles` is embedded with an explicit HTTP oracle
(`.error e` models a thrown axios/network error or a non-200 status, with the
message the catch block would observe; `.ok data` a parsed JSON body).  The
embedding additionally returns the list of queries attempted, in order, so
that the retry behaviour can be stated.  Response fields not read by any code
path (`related_searches`, `pagination`, and friends) are omitted. -/

structure SearchDetails where
  query : Str
  number_of_results : Str
deriving DecidableEq

structure ScholarSearchResult where
  title : Str
  title_link : Str
  id : Str
  snippet : Option Str
deriving DecidableEq

structure ScrapingDogResponse where
  search_details : Option SearchDetails
  scholar_results : Option (List ScholarSearchResult)
deriving DecidableEq

structure ScholarSearchResponse where
  search_details : Option SearchDetails
  scholar_results : List ScholarSearchResult
  error : Option Str
deriving DecidableEq

/-- The message of the error thrown when no ScrapingDog key is configured
    (scholarHelper.ts line 98). -/
def scrapingdogKeyError : Str :=
  str "ScrapingDog API key is not configured. Please set SCRAPINGDOG_KEY in .env.local"

/-- `ScholarHelper.searchArticles`, instrumented with the trace of queries
    attempted.  The recursion mirrors scholarHelper.ts lines 95–160; it
    terminates because the broadened query re-derives to itself
    (`broadenStr_idem`), so the recursive call never broadens again. -/
def searchArticlesT (oracle : Str → Nat → Except Str ScrapingDogResponse)
    (apiKey : Str) (query : Str) (page : Nat) : ScholarSearchResponse × List Str :=
  if apiKey = [] then
    (⟨some ⟨query, str "0 results"⟩, [], some scrapingdogKeyError⟩, [query])
  else
    match oracle query page with
    | .error e => (⟨some ⟨query, str "0 results"⟩, [], some e⟩, [query])
    | .ok data =>
      if h : data.scholar_results = some [] ∧ broadenTokens query ≠ [] ∧
          broadenStr query ≠ query then
        let r := searchArticlesT oracle apiKey (broadenStr query) page
        (r.1, query :: r.2)
      else
        (⟨data.search_details, data.scholar_results.getD [], none⟩, [query])
termination_by (if broadenStr query = query then 0 else 1)
decreasing_by
  rw [if_pos (broadenStr_idem query), if_neg h.2.2]
  omega

/-- `ScholarHelper.searchArticles` (the value the caller sees). -/
def searchArticles (oracle : Str → Nat → Except Str ScrapingDogResponse)
    (apiKey : Str) (query : Str) (page : Nat) : ScholarSearchResponse :=
  (searchArticlesT oracle apiKey query page).1

/-- `ScholarHelper.searchByInterests`. -/
def searchByInterests (oracle : Str → Nat → Except Str ScrapingDogResponse)
    (apiKey : Str) (interests : List Str) (page : Nat) : ScholarSearchResponse :=
  searchArticles oracle apiKey (joinSp interests) page

/-- The boolean query built by `ScholarHelper.searchWithAdvancedQuery`
    (scholarHelper.ts lines 184–195). -/
def advancedQuery (interests : List Str) : Str :=
  if interests.length = 1 then interests.headD []
  else if interests.length = 2 then
    interests.headD [] ++ str " AND " ++ (interests.drop 1).headD []
  else
    str "(" ++ joinWith (str " AND ") (interests.take 2) ++ str ") AND (" ++
      joinWith (str " OR ") (interests.drop 2) ++ str ")"

/-- `ScholarHelper.searchWithAdvancedQuery`. -/
def searchWithAdvancedQuery (oracle : Str → Nat → Except Str ScrapingDogResponse)
    (apiKey : Str) (interests : List Str) (page : Nat) : ScholarSearchResponse :=
  searchArticles oracle apiKey (advancedQuery interests) page

theorem searchArticlesT_nokey (oracle : Str → Nat → Except Str ScrapingDogResponse)
    (apiKey query : Str) (page : Nat) (hk : apiKey = []) :
    searchArticlesT oracle apiKey query page =
      (⟨some ⟨query, str "0 results"⟩, [], some scrapingdogKeyError⟩, [query]) := by
  rw [searchArticlesT, if_pos hk]

theorem searchArticlesT_err (oracle : Str → Nat → Except Str ScrapingDogResponse)
    (apiKey query : Str) (page : Nat) (e : Str)
    (hk : apiKey ≠ []) (ho : oracle query page = .error e) :
    searchArticlesT oracle apiKey query page =
      (⟨some ⟨query, str "0 results"⟩, [], some e⟩, [query]) := by
  rw [searchArticlesT, if_neg hk, ho]

theorem searchArticlesT_ok (oracle : Str → Nat → Except Str ScrapingDogResponse)
    (apiKey query : Str) (page : Nat) (data : ScrapingDogResponse)
    (hk : apiKey ≠ []) (ho : oracle query page = .ok data) :
    searchArticlesT oracle apiKey query page =
      if data.scholar_results = some [] ∧ broadenTokens query ≠ [] ∧
          broadenStr query ≠ query then
        ((searchArticlesT oracle apiKey (broadenStr query) page).1,
          query :: (searchArticlesT oracle apiKey (broadenStr query) page).2)
      else (⟨data.search_details, data.scholar_results.getD [], none⟩, [query]) := by
  rw [searchArticlesT, if_neg hk, ho]
  split
  · next e heq => exact Except.noConfusion heq
  · next d heq =>
    injection heq with h
    subst h
    by_cases hc : data.scholar_results = some [] ∧ broadenTokens query ≠ [] ∧
        broadenStr query ≠ query
    · rw [dif_pos hc, if_pos hc]
    · rw [dif_neg hc, if_neg hc]

/-! ## Claim theorems for the Search Provider -/

/-- C1: when the initial search returns a present-but-empty result list,
`searchArticles` performs exactly one broadened retry when the derived
keyword string differs from the original query (the attempted-query trace is
`[query, broadenStr query]`, and the retry's one-shot result is returned
directly, with no third attempt), and performs zero retries when the derived
string equals the original query or no tokens qualify. -/
theorem C1_broadening_retry
    (oracle : Str → Nat → Except Str ScrapingDogResponse)
    (apiKey query : Str) (page : Nat) (data : ScrapingDogResponse)
    (hk : apiKey ≠ []) (ho : oracle query page = .ok data)
    (he : data.scholar_results = some []) :
    (broadenTokens query ≠ [] ∧ broadenStr query ≠ query →
      (searchArticlesT oracle apiKey query page).2 = [query, broadenStr query] ∧
      (searchArticlesT oracle apiKey query page).1 =
        (match oracle (broadenStr query) page with
         | .error e => ⟨some ⟨broadenStr query, str "0 results"⟩, [], some e⟩
         | .ok d => ⟨d.search_details, d.scholar_results.getD [], none⟩)) ∧
    (broadenTokens query = [] ∨ broadenStr query = query →
      (searchArticlesT oracle apiKey query page).2 = [query] ∧
      (searchArticlesT oracle apiKey query page).1 =
        ⟨data.search_details, [], none⟩) := by
  constructor
  · rintro ⟨h1, h2⟩
    rw [searchArticlesT_ok oracle apiKey query page data hk ho, if_pos ⟨he, h1, h2⟩]
    rcases hbo : oracle (broadenStr query) page with e | d
    · rw [searchArticlesT_err oracle apiKey _ page e hk hbo]
      exact ⟨rfl, rfl⟩
    · rw [searchArticlesT_ok oracle apiKey _ page d hk hbo,
        if_neg (fun hcon => hcon.2.2 (broadenStr_idem query))]
      exact ⟨rfl, rfl⟩
  · intro h
    have hcond : ¬(data.scholar_results = some [] ∧ broadenTokens query ≠ [] ∧
        broadenStr query ≠ query) := by
      rintro ⟨_, hx, hy⟩
      rcases h with h | h
      · exact hx h
      · exact hy h
    rw [searchArticlesT_ok oracle apiKey query page data hk ho, if_neg hcond]
    exact ⟨rfl, by simp [he]⟩

/-- An oracle that always answers with a present-but-empty result list. -/
def c1Oracle : Str → Nat → Except Str ScrapingDogResponse :=
  fun q _ => .ok ⟨some ⟨q, str "x"⟩, some []⟩

/-- Witness for `C1_broadening_retry`: a query that broadens (one retry) and
one that does not (zero retries). -/
theorem C1_broadening_retry_witness :
    (searchArticlesT c1Oracle (str "k") (str "aaaa bbbb cccc dddd") 0).2 =
      [str "aaaa bbbb cccc dddd", str "aaaa bbbb cccc"] ∧
    (searchArticlesT c1Oracle (str "k") (str "aaaa bbbb") 0).2 =
      [str "aaaa bbbb"] := by
  constructor
  · rw [((C1_broadening_retry c1Oracle (str "k") (str "aaaa bbbb cccc dddd") 0
      ⟨some ⟨str "aaaa bbbb cccc dddd", str "x"⟩, some []⟩ (by decide) rfl rfl).1
      ⟨by decide, by decide⟩).1]
    decide
  · rw [((C1_broadening_retry c1Oracle (str "k") (str "aaaa bbbb") 0
      ⟨some ⟨str "aaaa bbbb", str "x"⟩, some []⟩ (by decide) rfl rfl).2
      (Or.inr (by decide))).1]

/-- C6: on any request failure (missing credential, or a thrown request error
— which covers non-2xx status and network errors), `searchArticles` returns
without throwing a synthetic response carrying the original query, the count
string "0 results", an empty result list, and a descriptive error string. -/
theorem C6_failure_synthetic_response
    (oracle : Str → Nat → Except Str ScrapingDogResponse)
    (apiKey query : Str) (page : Nat) :
    (apiKey = [] → searchArticles oracle apiKey query page =
      ⟨some ⟨query, str "0 results"⟩, [], some scrapingdogKeyError⟩) ∧
    ∀ e, apiKey ≠ [] → oracle query page = .error e →
      searchArticles oracle apiKey query page =
        ⟨some ⟨query, str "0 results"⟩, [], some e⟩ := by
  constructor
  · intro hk
    rw [searchArticles, searchArticlesT_nokey oracle apiKey query page hk]
  · intro e hk ho
    rw [searchArticles, searchArticlesT_err oracle apiKey query page e hk ho]

/-- An oracle whose request always fails. -/
def c6Oracle : Str → Nat → Except Str ScrapingDogResponse :=
  fun _ _ => .error (str "Request failed with status code: 500")

/-- Witness for `C6_failure_synthetic_response`: the missing-credential case
and the failed-request case at concrete inputs. -/
theorem C6_failure_synthetic_response_witness :
    searchArticles c6Oracle [] (str "qq") 0 =
      ⟨some ⟨str "qq", str "0 results"⟩, [], some scrapingdogKeyError⟩ ∧
    searchArticles c6Oracle (str "k") (str "qq") 0 =
      ⟨some ⟨str "qq", str "0 results"⟩, [],
        some (str "Request failed with status code: 500")⟩ :=
  ⟨(C6_failure_synthetic_response c6Oracle [] (str "qq") 0).1 rfl,
    (C6_failure_synthetic_response c6Oracle (str "k") (str "qq") 0).2 _ (by decide) rfl⟩

/-- An oracle used only to instantiate oracle arguments in witnesses. -/
def nullOracle : Str → Nat → Except Str ScrapingDogResponse :=
  fun _ _ => .error []

/-- C7: the boolean query built by `searchWithAdvancedQuery`: a single
interest maps to itself, two interests to `A AND B`, three or more to
`(first two AND-joined) AND (remaining OR-joined)`; in particular
`[a, b, c, d]` produces `(a AND b) AND (c OR d)`. -/
theorem C7_advanced_query_shape (a b c d : Str) (l : List Str)
    (oracle : Str → Nat → Except Str ScrapingDogResponse)
    (apiKey : Str) (page : Nat) :
    advancedQuery [a] = a ∧
    advancedQuery [a, b] = a ++ str " AND " ++ b ∧
    (3 ≤ l.length →
      advancedQuery l = str "(" ++ joinWith (str " AND ") (l.take 2) ++
        str ") AND (" ++ joinWith (str " OR ") (l.drop 2) ++ str ")") ∧
    advancedQuery [a, b, c, d] =
      str "(" ++ a ++ str " AND " ++ b ++ str ") AND (" ++ c ++ str " OR " ++ d ++
        str ")" ∧
    searchWithAdvancedQuery oracle apiKey l page =
      searchArticles oracle apiKey (advancedQuery l) page := by
  refine ⟨by simp [advancedQuery], by simp [advancedQuery], ?_, ?_, rfl⟩
  · intro h3
    rw [advancedQuery, if_neg (by omega), if_neg (by omega)]
  · simp [advancedQuery, joinWith, List.append_assoc]

/-- Witness for `C7_advanced_query_shape`: the four-interest round trip. -/
theorem C7_advanced_query_shape_witness :
    advancedQuery [str "a", str "b", str "c", str "d"] =
      str "(a AND b) AND (c OR d)" := by
  rw [(C7_advanced_query_shape (str "a") (str "b") (str "c") (str "d")
    [str "a", str "b", str "c", str "d"] nullOracle [] 0).2.2.1 (by decide)]
  decide

/-- C10: the keyword-broadening transformation (strip quotes, split on
whitespace, keep tokens longer than 3 characters, take the first 3, join
with single spaces) is idempotent, which is why the broadened retry never
triggers a further broadening. -/
theorem C10_broadening_idempotent (q : Str) :
    broadenStr (broadenStr q) = broadenStr q :=
  broadenStr_idem q

/-! ### CohereHelper (src/utils/cohereHelper.ts)

`parseQueriesFromResponse` first runs the global regex
`/\d+\.\s*([^\n]+)/g` over the response.  The regex is modelled by
`matchPat` (one anchored attempt, with the backtracking of `\s*` against
`[^\n]+` captured by `wsThenCapture`) and `scanMatches` (the left-to-right
global scan).  `scanMatches` uses `s.length` as structural fuel; every match
consumes at least one character (`matchPat_pos`), so the fuel never runs out
(`scanGo_eq`). -/

def newline : Char := Char.ofNat 10

/-- Largest position in `r` holding a character other than `\n`
    (used when `\s*` has to backtrack because `[^\n]+` hit the end). -/
def lastNonNlPos (r : Str) : Option Nat :=
  let t := (r.reverse.takeWhile (fun c => c = newline)).length
  if t = r.length then none else some (r.length - t - 1)

/-- Match `\s*([^\n]+)` at the head of `r` with backtracking: greedily
    consume whitespace, then give characters back until `[^\n]+` can match.
    Returns (whitespace consumed, capture length). -/
def wsThenCapture (r : Str) : Option (Nat × Nat) :=
  let k := (r.takeWhile isWsChar).length
  if k < r.length then
    some (k, ((r.drop k).takeWhile (fun c => c ≠ newline)).length)
  else
    match lastNonNlPos r with
    | some p => some (p, ((r.drop p).takeWhile (fun c => c ≠ newline)).length)
    | none => none

/-- One anchored attempt of `\d+\.\s*([^\n]+)` at the head of `s`;
    returns the full match length. -/
def matchPat (s : Str) : Option Nat :=
  let ds := s.takeWhile isDigitChar
  if ds = [] then none
  else
    match s.drop ds.length with
    | c :: r2 =>
      if c = '.' then
        match wsThenCapture r2 with
        | some (p, cl) => some (ds.length + 1 + p + cl)
        | none => none
      else none
    | [] => none

/-- Left-to-right global scan of `matchPat` (fuel-indexed worker). -/
def scanGo : Nat → Str → List Str
  | 0, _ => []
  | _ + 1, [] => []
  | fuel + 1, c :: rest =>
    match matchPat (c :: rest) with
    | some n => (c :: rest).take n :: scanGo fuel ((c :: rest).drop n)
    | none => scanGo fuel rest

/-- `response.match(/\d+\.\s*([^\n]+)/g)` (`[]` plays the role of `null`). -/
def scanMatches (s : Str) : List Str := scanGo s.length s

/-- `item.replace(/^\d+\.\s*/, '')`. -/
def stripLeadingEnum (s : Str) : Str :=
  let ds := s.takeWhile isDigitChar
  if ds = [] then s
  else
    match s.drop ds.length with
    | c :: r => if c = '.' then r.dropWhile isWsChar else s
    | [] => s

/-- `response.split('\n')`. -/
def splitNl : Str → List Str
  | [] => [[]]
  | c :: r => if c = newline then [] :: splitNl r else consHead c (splitNl r)

/-- `String.prototype.startsWith`. -/
def startsWith (pre s : Str) : Bool := pre.isPrefixOf s

/-- `CohereHelper.parseQueriesFromResponse` (cohereHelper.ts lines 82–104). -/
def parseQueriesFromResponse (response : Str) : List Str :=
  let numberedList := scanMatches response
  if numberedList ≠ [] then
    numberedList.map (fun item => trimStr (stripLeadingEnum item))
  else
    let lineBreakQueries := ((splitNl response).map trimStr).filter
      (fun line => !line.isEmpty && !startsWith (str "Here") line &&
        !startsWith (str "Based") line)
    if lineBreakQueries ≠ [] then lineBreakQueries else [trimStr response]

/-- A leading enumeration marker of the form `<int>. `. -/
def startsWithEnumMarker (e : Str) : Prop :=
  ∃ d t, d ≠ [] ∧ (∀ c ∈ d, isDigitChar c = true) ∧ e = d ++ '.' :: ' ' :: t

/-! ### Lemmas about the regex scan -/

theorem matchPat_pos (s : Str) (n : Nat) (h : matchPat s = some n) : 1 ≤ n := by
  simp only [matchPat] at h
  split at h
  · exact absurd h (by simp)
  · split at h
    · split at h
      · split at h
        · injection h with h'
          omega
        · exact absurd h (by simp)
      · exact absurd h (by simp)
    · exact absurd h (by simp)

theorem scanGo_eq (f : Nat) : ∀ s : Str, s.length ≤ f → scanGo f s = scanGo s.length s := by
  induction f using Nat.strong_induction_on with
  | _ f ih =>
    intro s hs
    match f, s with
    | 0, s =>
      have : s = [] := List.length_eq_zero.mp (Nat.le_zero.mp hs)
      subst this; rfl
    | f + 1, [] => rfl
    | f + 1, c :: rest =>
      show scanGo (f + 1) (c :: rest) = scanGo (rest.length + 1) (c :: rest)
      simp only [scanGo]
      rcases hp : matchPat (c :: rest) with _ | n
      · show scanGo f rest = scanGo rest.length rest
        have h1 : rest.length ≤ f := by simpa using hs
        rw [ih f (by omega) rest h1]
      · show (c :: rest).take n :: scanGo f ((c :: rest).drop n) =
          (c :: rest).take n :: scanGo rest.length ((c :: rest).drop n)
        have hn : 1 ≤ n := matchPat_pos _ _ hp
        have hrl : rest.length ≤ f := by simpa using hs
        have hdl : ((c :: rest).drop n).length ≤ f := by
          simp only [List.length_drop, List.length_cons]
          omega
        have hdl2 : ((c :: rest).drop n).length ≤ rest.length := by
          simp only [List.length_drop, List.length_cons]
          omega
        rw [ih f (by omega) _ hdl, ih rest.length (by omega) _ hdl2]

theorem scanMatches_cons (c : Char) (rest : Str) :
    scanMatches (c :: rest) =
      match matchPat (c :: rest) with
      | some n => (c :: rest).take n :: scanMatches ((c :: rest).drop n)
      | none => scanMatches rest := by
  show scanGo (rest.length + 1) (c :: rest) = _
  simp only [scanGo]
  rcases hp : matchPat (c :: rest) with _ | n
  · rfl
  · show (c :: rest).take n :: scanGo rest.length ((c :: rest).drop n) =
      (c :: rest).take n :: scanMatches ((c :: rest).drop n)
    have hn : 1 ≤ n := matchPat_pos _ _ hp
    have hdl : ((c :: rest).drop n).length ≤ rest.length := by
      simp only [List.length_drop, List.length_cons]
      omega
    rw [scanGo_eq rest.length _ hdl]
    rfl

theorem takeWhile_append_of_all (p : Char → Bool) (xs : Str) (y : Char) (z : Str)
    (hxs : ∀ c ∈ xs, p c = true) (hy : p y = false) :
    (xs ++ y :: z).takeWhile p = xs := by
  induction xs with
  | nil => simp [List.takeWhile_cons, hy]
  | cons a xs ih =>
    have ha : p a = true := hxs a (List.mem_cons_self a xs)
    simp only [List.cons_append, List.takeWhile_cons, ha, if_pos]
    rw [ih (fun c hc => hxs c (List.mem_cons_of_mem _ hc))]

theorem all_of_takeWhile_length (p : Char → Bool) (l : Str)
    (h : (l.takeWhile p).length = l.length) : ∀ c ∈ l, p c = true := by
  induction l with
  | nil => simp
  | cons a t ih =>
    by_cases hp : p a
    · rw [List.takeWhile_cons, if_pos hp] at h
      simp only [List.length_cons, Nat.add_right_cancel_iff] at h
      intro c hc
      rcases List.mem_cons.mp hc with hc | hc
      · subst hc; exact hp
      · exact ih h c hc
    · rw [List.takeWhile_cons, if_neg hp] at h
      simp at h

theorem wsThenCapture_ne_none (r : Str) (c0 : Char) (hc0 : c0 ∈ r) (hnl : c0 ≠ newline) :
    wsThenCapture r ≠ none := by
  simp only [wsThenCapture]
  split
  · simp
  · rcases hl : lastNonNlPos r with _ | p
    · exfalso
      simp only [lastNonNlPos] at hl
      split at hl
      · next ht =>
        have ht' : ((r.reverse).takeWhile (fun c => c = newline)).length = r.reverse.length := by
          rw [List.length_reverse]; exact ht
        have hall := all_of_takeWhile_length _ _ ht' c0 (List.mem_reverse.mpr hc0)
        simp at hall
        exact hnl hall
      · exact absurd hl (by simp)
    · simp [hl]

theorem matchPat_marker (d t : Str) (hd : d ≠ []) (hdig : ∀ c ∈ d, isDigitChar c = true) :
    matchPat (d ++ '.' :: ' ' :: t) ≠ none := by
  have htw : (d ++ '.' :: ' ' :: t).takeWhile isDigitChar = d :=
    takeWhile_append_of_all _ d '.' (' ' :: t) hdig (by decide)
  simp only [matchPat, htw, hd, if_neg, List.drop_left]
  rcases hw : wsThenCapture (' ' :: t) with _ | pc
  · exact absurd hw (wsThenCapture_ne_none (' ' :: t) ' ' (List.mem_cons_self _ _) (by decide))
  · simp

theorem matchPat_nil : matchPat ([] : Str) = none := rfl

theorem scanMatches_ne_nil (s s' : Str) (hs : s' <:+ s) (hm : matchPat s' ≠ none) :
    scanMatches s ≠ [] := by
  induction s with
  | nil =>
    obtain ⟨u, hu⟩ := hs
    have h1 : s' = [] := (List.append_eq_nil.mp hu).2
    rw [h1] at hm
    exact absurd matchPat_nil hm
  | cons c rest ih =>
    rw [scanMatches_cons]
    rcases hp : matchPat (c :: rest) with _ | n
    · show scanMatches rest ≠ []
      obtain ⟨u, hu⟩ := hs
      cases u with
      | nil =>
        simp at hu
        rw [hu] at hm
        exact absurd hp hm
      | cons a u' =>
        apply ih
        refine ⟨u', ?_⟩
        injection hu with h1 h2
    · show ((c :: rest).take n :: scanMatches ((c :: rest).drop n)) ≠ []
      simp

theorem splitNl_ne_nil (s : Str) : splitNl s ≠ [] := by
  induction s with
  | nil => simp [splitNl]
  | cons c r ih =>
    by_cases hc : c = newline
    · simp [splitNl, hc]
    · simp only [splitNl, hc, if_neg, Bool.false_eq_true, ↓reduceIte]
      unfold consHead
      cases splitNl r <;> simp

theorem splitNl_head (s : Str) : ∃ suf, s = (splitNl s).headD [] ++ suf := by
  induction s with
  | nil => exact ⟨[], rfl⟩
  | cons c r ih =>
    by_cases hc : c = newline
    · exact ⟨c :: r, by simp [splitNl, hc]⟩
    · obtain ⟨suf, hsuf⟩ := ih
      rcases hr : splitNl r with _ | ⟨h0, hs⟩
      · exact absurd hr (splitNl_ne_nil r)
      · refine ⟨suf, ?_⟩
        simp only [splitNl, hc, if_neg, Bool.false_eq_true, ↓reduceIte, hr, consHead,
          List.headD_cons]
        rw [hr, List.headD_cons] at hsuf
        simp [hsuf]

theorem splitNl_mem (s : Str) : ∀ x ∈ splitNl s, ∃ pre suf, s = pre ++ x ++ suf := by
  induction s with
  | nil =>
    intro x hx
    simp [splitNl] at hx
    subst hx
    exact ⟨[], [], rfl⟩
  | cons c r ih =>
    intro x hx
    by_cases hc : c = newline
    · simp only [splitNl, hc, if_pos] at hx
      rcases List.mem_cons.mp hx with h | h
      · subst h; exact ⟨[], c :: r, rfl⟩
      · obtain ⟨p, sf, hps⟩ := ih x h
        exact ⟨c :: p, sf, by simp [hps]⟩
    · simp only [splitNl, hc, if_neg, Bool.false_eq_true, ↓reduceIte] at hx
      rcases hr : splitNl r with _ | ⟨h0, hs⟩
      · exact absurd hr (splitNl_ne_nil r)
      · rw [hr] at hx
        unfold consHead at hx
        rcases List.mem_cons.mp hx with h | h
        · obtain ⟨suf, hsuf⟩ := splitNl_head r
          rw [hr, List.headD_cons] at hsuf
          refine ⟨[], suf, ?_⟩
          rw [h, hsuf]
          simp
        · obtain ⟨p, sf, hps⟩ := ih x (hr ▸ List.mem_cons_of_mem _ h)
          exact ⟨c :: p, sf, by simp [hps]⟩

theorem dropWhile_dropWhile (p : Char → Bool) (l : Str) :
    (l.dropWhile p).dropWhile p = l.dropWhile p := by
  induction l with
  | nil => rfl
  | cons a t ih =>
    by_cases hp : p a
    · simp [List.dropWhile_cons, hp, ih]
    · simp [List.dropWhile_cons, hp]

theorem trimL_decomp (l : Str) : l = l.takeWhile isWsChar ++ trimL l :=
  (List.takeWhile_append_dropWhile (p := isWsChar) (l := l)).symm

theorem trimR_decomp (y : Str) :
    y = trimR y ++ (y.reverse.takeWhile isWsChar).reverse := by
  have h := congrArg List.reverse
    (List.takeWhile_append_dropWhile (p := isWsChar) (l := y.reverse))
  rw [List.reverse_append, List.reverse_reverse] at h
  exact h.symm

theorem trimL_trimR (y : Str) (hy : trimL y = y) : trimL (trimR y) = trimR y := by
  rcases hR : trimR y with _ | ⟨c, t⟩
  · rfl
  · have hdec := trimR_decomp y
    rw [hR] at hdec
    have hcw : isWsChar c = false := by
      by_contra hcw'
      have hcw2 : isWsChar c = true := by simpa using hcw'
      rw [hdec] at hy
      rw [trimL, List.cons_append, List.dropWhile_cons, if_pos hcw2] at hy
      have hlen := congrArg List.length hy
      have hle : (List.dropWhile isWsChar
          (t ++ (y.reverse.takeWhile isWsChar).reverse)).length ≤
          (t ++ (y.reverse.takeWhile isWsChar).reverse).length :=
        (List.dropWhile_suffix _).length_le
      simp only [List.length_cons] at hlen
      omega
    rw [trimL, List.dropWhile_cons, if_neg (by simp [hcw])]

theorem trimR_idem (y : Str) : trimR (trimR y) = trimR y := by
  show ((((y.reverse.dropWhile isWsChar).reverse).reverse).dropWhile isWsChar).reverse = _
  rw [List.reverse_reverse, dropWhile_dropWhile]
  rfl

theorem trimStr_idem (s : Str) : trimStr (trimStr s) = trimStr s := by
  show trimR (trimL (trimR (trimL s))) = trimR (trimL s)
  rw [trimL_trimR (trimL s) (dropWhile_dropWhile _ _), trimR_idem]

theorem trimStr_decomp (l : Str) : ∃ a b, l = a ++ trimStr l ++ b := by
  refine ⟨l.takeWhile isWsChar, ((trimL l).reverse.takeWhile isWsChar).reverse, ?_⟩
  calc l = l.takeWhile isWsChar ++ trimL l := trimL_decomp l
    _ = l.takeWhile isWsChar ++ (trimStr l ++ ((trimL l).reverse.takeWhile isWsChar).reverse) := by
        rw [trimStr, ← trimR_decomp (trimL l)]
    _ = l.takeWhile isWsChar ++ trimStr l ++ ((trimL l).reverse.takeWhile isWsChar).reverse := by
        rw [List.append_assoc]

theorem scan_of_marker_infix (r e pre suf : Str) (hr : r = pre ++ e ++ suf)
    (hm : startsWithEnumMarker e) : scanMatches r ≠ [] := by
  obtain ⟨d, t, hd, hdig, he⟩ := hm
  apply scanMatches_ne_nil r (e ++ suf)
  · refine ⟨pre, ?_⟩
    rw [hr, List.append_assoc]
  · rw [he]
    have : (d ++ '.' :: ' ' :: t) ++ suf = d ++ '.' :: ' ' :: (t ++ suf) := by
      simp [List.append_assoc]
    rw [this]
    exact matchPat_marker d (t ++ suf) hd hdig

theorem parseQueries_cases (r e : Str) (he : e ∈ parseQueriesFromResponse r) :
    (scanMatches r ≠ [] ∧ ∃ item ∈ scanMatches r, e = trimStr (stripLeadingEnum item)) ∨
    (scanMatches r = [] ∧ ∃ line ∈ splitNl r, e = trimStr line) ∨
    (scanMatches r = [] ∧ e = trimStr r) := by
  simp only [parseQueriesFromResponse] at he
  by_cases h1 : scanMatches r = []
  · rw [if_neg (not_not_intro h1)] at he
    by_cases h2 : ((splitNl r).map trimStr).filter
        (fun line => !line.isEmpty && !startsWith (str "Here") line &&
          !startsWith (str "Based") line) = []
    · rw [if_neg (not_not_intro h2)] at he
      right; right
      exact ⟨h1, List.mem_singleton.mp he⟩
    · rw [if_pos h2] at he
      right; left
      refine ⟨h1, ?_⟩
      have hmap := (List.mem_filter.mp he).1
      obtain ⟨line, hline, heq⟩ := List.mem_map.mp hmap
      exact ⟨line, hline, heq.symm⟩
  · rw [if_pos h1] at he
    left
    refine ⟨h1, ?_⟩
    obtain ⟨item, hitem, heq⟩ := List.mem_map.mp he
    exact ⟨item, hitem, heq.symm⟩

/-! ## Claim theorems for the Query Generator parser -/

/-- C3 counterexample: on the raw response `"1. 2. foo"` the parser returns
the single element `"2. foo"`, which begins with the enumeration marker
`"2. "` — refuting the claim that no returned element begins with a marker
of the form `<int>. `. -/
theorem C3_counterexample :
    parseQueriesFromResponse (str "1. 2. foo") = [str "2. foo"] ∧
    startsWithEnumMarker (str "2. foo") := by
  constructor
  · decide
  · exact ⟨['2'], str "foo", by decide, by decide, by decide⟩

/-- C3 (amended): for every raw response string the parser returns a
non-empty array of trimmed strings; when the numbered-list regex finds no
match, no returned element begins with an enumeration marker.  (When the
numbered branch is taken, exactly one leading marker is stripped per item,
so an element can still begin with a marker if the item carried a second
marker right after the first — see `C3_counterexample`.) -/
theorem C3_parser_output (r : Str) :
    parseQueriesFromResponse r ≠ [] ∧
    (∀ e ∈ parseQueriesFromResponse r, trimStr e = e) ∧
    (scanMatches r = [] → ∀ e ∈ parseQueriesFromResponse r, ¬ startsWithEnumMarker e) := by
  refine ⟨?_, ?_, ?_⟩
  · simp only [parseQueriesFromResponse]
    by_cases h1 : scanMatches r = []
    · rw [if_neg (not_not_intro h1)]
      by_cases h2 : ((splitNl r).map trimStr).filter
          (fun line => !line.isEmpty && !startsWith (str "Here") line &&
            !startsWith (str "Based") line) = []
      · rw [if_neg (not_not_intro h2)]
        simp
      · rw [if_pos h2]
        exact h2
    · rw [if_pos h1]
      intro hmap
      exact h1 (List.map_eq_nil_iff.mp hmap)
  · intro e he
    rcases parseQueries_cases r e he with ⟨_, _, _, heq⟩ | ⟨_, _, _, heq⟩ | ⟨_, heq⟩ <;>
      rw [heq, trimStr_idem]
  · intro h0 e he hmark
    rcases parseQueries_cases r e he with ⟨hne, _⟩ | ⟨_, line, hline, heq⟩ | ⟨_, heq⟩
    · exact hne h0
    · obtain ⟨p, sf, hps⟩ := splitNl_mem r line hline
      obtain ⟨a, b, hab⟩ := trimStr_decomp line
      rw [← heq] at hab
      have hr : r = (p ++ a) ++ e ++ (b ++ sf) := by
        rw [hps, hab]
        simp [List.append_assoc]
      exact scan_of_marker_infix r e (p ++ a) (b ++ sf) hr hmark h0
    · obtain ⟨a, b, hab⟩ := trimStr_decomp r
      rw [← heq] at hab
      exact scan_of_marker_infix r e a b hab hmark h0

/-- Witness for `C3_parser_output`: a line-broken response with no numbered
list; the no-match hypothesis of the third conjunct is discharged by
computation. -/
theorem C3_parser_output_witness :
    parseQueriesFromResponse (str " alpha\nbeta ") ≠ [] ∧
    ∀ e ∈ parseQueriesFromResponse (str " alpha\nbeta "), ¬ startsWithEnumMarker e :=
  ⟨(C3_parser_output (str " alpha\nbeta ")).1,
    (C3_parser_output (str " alpha\nbeta ")).2.2 (by decide)⟩

/-! ### LLMHelper (src/utils/llmHelper.ts)

`summarizeArticle` is embedded with an oracle from the user prompt to the
API outcome (`.error e` models a thrown network/auth error with message `e`,
`.ok resp` a response object).  The response object is modelled by
`OpenAIResponseModel`; an absent or non-string field is `none` (mirroring the
guards `'output_text' in response && typeof ... === 'string'` and friends),
and the `text` field distinguishes the string and object cases. -/

def toLowerChar (c : Char) : Char :=
  if 'A' ≤ c ∧ c ≤ 'Z' then Char.ofNat (c.toNat + 32) else c

def titleKw : Str := str "title:"

/-- Does the (ASCII-)lowercased suffix begin with `title:`? -/
def isTitleAt (s : Str) : Bool := (s.take 6).map toLowerChar = titleKw

/-- `truncatedText.toLowerCase().includes("title:")`. -/
def hasTitleKw : Str → Bool
  | [] => false
  | c :: r => isTitleAt (c :: r) || hasTitleKw r

/-- One anchored attempt of `/title:\s*([^\n]+)/i` at the head of `s`:
    (whitespace consumed by `\s*`, capture length). -/
def matchTitleAt (s : Str) : Option (Nat × Nat) :=
  if isTitleAt s then wsThenCapture (s.drop 6) else none

/-- First match of `/title:\s*([^\n]+)/i`:
    (match start index, whitespace consumed, capture length). -/
def findTitle : Str → Nat → Option (Nat × Nat × Nat)
  | [], _ => none
  | c :: r, i =>
    match matchTitleAt (c :: r) with
    | some (p, cl) => some (i, p, cl)
    | none => findTitle r (i + 1)

def defaultTitle : Str := str "Scholarly Article"

/-- The title/content extraction of `summarizeArticle`
    (llmHelper.ts lines 136–147), applied to the truncated text. -/
def extractTitleContent (t : Str) : Str × Str :=
  if hasTitleKw t then
    match findTitle t 0 with
    | some (i, p, cl) =>
      let cap := (t.drop (i + 6 + p)).take cl
      if cap ≠ [] then
        (trimStr cap, trimStr (t.take i ++ t.drop (i + 6 + p + cl)))
      else (defaultTitle, t)
    | none => (defaultTitle, t)
  else (defaultTitle, t)

inductive TextField where
  | strVal (s : Str)
  | objVal
deriving DecidableEq

structure OutputContent where
  type : Option Str
  text : Option Str
deriving DecidableEq

structure OutputItem where
  content : Option (List OutputContent)
deriving DecidableEq

structure ChoiceMessage where
  content : Option Str
deriving DecidableEq

structure ChoiceItem where
  message : Option ChoiceMessage
deriving DecidableEq

structure OpenAIResponseModel where
  output_text : Option Str
  output : Option (List OutputItem)
  text : Option TextField
  choices : Option (List ChoiceItem)
deriving DecidableEq

/-- The inner loop over `output[0].content`: the first item with
    `type === 'output_text'` and truthy `text` wins. -/
def firstOutputText : List OutputContent → Str
  | [] => []
  | it :: rest =>
    match it.type, it.text with
    | some ty, some tx =>
      if ty = str "output_text" ∧ tx ≠ [] then tx else firstOutputText rest
    | _, _ => firstOutputText rest

def noTextPropertyMsg : Str := str "No summary content available from text property."

def unableMsg : Str := str "Unable to extract summary from response."

/-- The response-shape extraction chain of `summarizeArticle`
    (llmHelper.ts lines 188–237): `output_text`, then a non-empty `output`
    array, then the `text` field, then `choices`, else a last-resort
    message.  An empty string result means no usable text was found, and the
    default-summary guard will fire. -/
def extractSummary (r : OpenAIResponseModel) : Str :=
  match r.output_text with
  | some s => s
  | none =>
    match r.output with
    | some (o :: _) =>
      (match o.content with
       | some items => firstOutputText items
       | none => [])
    | _ =>
      match r.text with
      | some (TextField.strVal s) => s
      | some TextField.objVal => noTextPropertyMsg
      | none =>
        match r.choices with
        | some (c :: _) =>
          (match c.message with
           | some m =>
             (match m.content with
              | some tx => if tx ≠ [] then tx else []
              | none => [])
           | none => [])
        | some [] => []
        | none => unableMsg

def lcub : Char := Char.ofNat 123

def rcub : Char := Char.ofNat 125

def defaultSummary (title : Str) : Str :=
  str "The article discusses " ++ title ++
    str ". Unfortunately, not enough context was available to generate a detailed summary."

def errorTitle : Str := str "Error Summarizing Article"

def errorSummaryText : Str := str "There was an error generating the summary."

structure SummaryResponse where
  title : Str
  summary : Str
  error : Option Str
deriving DecidableEq

/-- Truncation of the article text (llmHelper.ts lines 132–134). -/
def truncate8000 (t : Str) : Str :=
  if 8000 < t.length then t.take 8000 ++ str "..." else t

/-- The user prompt sent to the API (llmHelper.ts line 167). -/
def buildPrompt (title content : Str) : Str :=
  str "title: " ++ title ++ str " … " ++ content ++ str " …\nExpand\nAssistant"

/-- The guard `!summary || summary.trim() === "" ||
    (summary.startsWith("{") && summary.endsWith("}"))`. -/
def needsDefault (s : Str) : Bool :=
  s.isEmpty || (trimStr s).isEmpty || (s.head? = some lcub && s.getLast? = some rcub)

/-- `LLMHelper.summarizeArticle` (llmHelper.ts lines 129–253). -/
def summarizeArticle (oracle : Str → Except Str OpenAIResponseModel)
    (articleText : Str) : SummaryResponse :=
  let truncatedText := truncate8000 articleText
  let tc := extractTitleContent truncatedText
  match oracle (buildPrompt tc.1 tc.2) with
  | .error e => ⟨errorTitle, errorSummaryText, some e⟩
  | .ok resp =>
    let raw := extractSummary resp
    ⟨tc.1, if needsDefault raw then defaultSummary tc.1 else raw, none⟩

/-! ### Lemmas about title extraction -/

theorem dropWhile_ne_nil_of_exists (p : Char → Bool) (l : Str)
    (h : ∃ c ∈ l, p c = false) : l.dropWhile p ≠ [] := by
  induction l with
  | nil => simp at h
  | cons a t ih =>
    rw [List.dropWhile_cons]
    by_cases hp : p a
    · rw [if_pos hp]
      apply ih
      obtain ⟨c, hc, hcp⟩ := h
      rcases List.mem_cons.mp hc with h1 | h1
      · subst h1
        rw [hp] at hcp
        exact absurd hcp (by simp)
      · exact ⟨c, h1, hcp⟩
    · rw [if_neg hp]
      simp

theorem head_dropWhile (p : Char → Bool) (l : Str) (c : Char) (t : Str)
    (h : l.dropWhile p = c :: t) : p c = false := by
  induction l with
  | nil => simp at h
  | cons a r ih =>
    rw [List.dropWhile_cons] at h
    by_cases hp : p a
    · rw [if_pos hp] at h
      exact ih h
    · rw [if_neg hp] at h
      injection h with h1 _
      subst h1
      simpa using hp

theorem takeWhile_append_all (p : Char → Bool) (xs z : Str)
    (h : ∀ c ∈ xs, p c = true) : (xs ++ z).takeWhile p = xs ++ z.takeWhile p := by
  induction xs with
  | nil => simp
  | cons a t ih =>
    have ha := h a (List.mem_cons_self _ _)
    simp [List.takeWhile_cons, ha, ih (fun c hc => h c (List.mem_cons_of_mem _ hc))]

theorem wsThenCapture_marker (X Y : Str)
    (hX1 : newline ∉ X) (hX2 : ∃ c ∈ X, isWsChar c = false) :
    wsThenCapture (X ++ newline :: Y) =
      some ((X.takeWhile isWsChar).length, (X.dropWhile isWsChar).length) := by
  obtain ⟨c', t', hct⟩ : ∃ c' t', X.dropWhile isWsChar = c' :: t' := by
    rcases h : X.dropWhile isWsChar with _ | ⟨c', t'⟩
    · exact absurd h (dropWhile_ne_nil_of_exists _ _ hX2)
    · exact ⟨c', t', rfl⟩
  have hc'w : isWsChar c' = false := head_dropWhile _ _ _ _ hct
  have hXdecomp : X = X.takeWhile isWsChar ++ c' :: t' := by
    conv_lhs => rw [← List.takeWhile_append_dropWhile (p := isWsChar) (l := X), hct]
  have hmemX : ∀ c ∈ c' :: t', c ∈ X := by
    intro c hc
    rw [hXdecomp]
    exact List.mem_append.mpr (Or.inr hc)
  have htake : (X ++ newline :: Y).takeWhile isWsChar = X.takeWhile isWsChar := by
    conv_lhs => rw [hXdecomp, List.append_assoc]
    rw [takeWhile_append_all _ _ _ (fun c hc => List.mem_takeWhile_imp hc)]
    rw [List.cons_append, List.takeWhile_cons, if_neg (by simp [hc'w])]
    simp
  have hklen : (X.takeWhile isWsChar).length < (X ++ newline :: Y).length := by
    have h1 := congrArg List.length hXdecomp
    simp only [List.length_append, List.length_cons] at h1 ⊢
    omega
  have hdrop : (X ++ newline :: Y).drop (X.takeWhile isWsChar).length =
      c' :: (t' ++ newline :: Y) := by
    have hsplit : X ++ newline :: Y =
        X.takeWhile isWsChar ++ (c' :: (t' ++ newline :: Y)) := by
      conv_lhs => rw [hXdecomp]
      simp only [List.append_assoc, List.cons_append]
    rw [hsplit, List.drop_left]
  have hcap : (c' :: (t' ++ newline :: Y)).takeWhile (fun c => c ≠ newline) =
      c' :: t' := by
    rw [show c' :: (t' ++ newline :: Y) = (c' :: t') ++ newline :: Y by simp]
    apply takeWhile_append_of_all
    · intro c hc
      simp only [ne_eq, decide_eq_true_eq]
      intro hcnl
      exact hX1 (hcnl ▸ hmemX c hc)
    · simp
  simp only [wsThenCapture, htake, hklen, if_pos, hdrop, hcap, hct]

theorem marker_length (M : Str) (hM : M.map toLowerChar = titleKw) : M.length = 6 := by
  have h := congrArg List.length hM
  simpa using h

theorem isTitleAt_marker (M z : Str) (hM : M.map toLowerChar = titleKw) :
    isTitleAt (M ++ z) = true := by
  have htk : (M ++ z).take 6 = M := by
    rw [← marker_length M hM, List.take_left]
  simp only [isTitleAt, htk, hM]
  simp

theorem matchTitleAt_marker (M X Y : Str) (hM : M.map toLowerChar = titleKw)
    (hX1 : newline ∉ X) (hX2 : ∃ c ∈ X, isWsChar c = false) :
    matchTitleAt (M ++ (X ++ newline :: Y)) =
      some ((X.takeWhile isWsChar).length, (X.dropWhile isWsChar).length) := by
  have hdr : (M ++ (X ++ newline :: Y)).drop 6 = X ++ newline :: Y := by
    rw [← marker_length M hM, List.drop_left]
  rw [matchTitleAt, if_pos (isTitleAt_marker M _ hM), hdr,
    wsThenCapture_marker X Y hX1 hX2]

theorem findTitle_skip (A : Str) : ∀ (z : Str) (i : Nat),
    (∀ j, j < A.length → matchTitleAt ((A ++ z).drop j) = none) →
    findTitle (A ++ z) i = findTitle z (i + A.length) := by
  induction A with
  | nil => intro z i _; simp
  | cons a A' ih =>
    intro z i hA
    have h0 := hA 0 (by simp)
    rw [List.drop_zero] at h0
    rw [List.cons_append] at h0 ⊢
    show (match matchTitleAt (a :: (A' ++ z)) with
      | some (p, cl) => some (i, p, cl)
      | none => findTitle (A' ++ z) (i + 1)) = _
    rw [h0]
    have hA' : ∀ j, j < A'.length → matchTitleAt ((A' ++ z).drop j) = none := by
      intro j hj
      have := hA (j + 1) (by simp; omega)
      rwa [List.cons_append, List.drop_succ_cons] at this
    rw [ih z (i + 1) hA']
    have : i + 1 + A'.length = i + (a :: A').length := by
      simp only [List.length_cons]
      omega
    rw [this]

theorem findTitle_of_match (z : Str) (i p cl : Nat)
    (h : matchTitleAt z = some (p, cl)) : findTitle z i = some (i, p, cl) := by
  cases z with
  | nil =>
    rw [show matchTitleAt [] = none from by rw [matchTitleAt, if_neg (by decide)]] at h
    exact Option.noConfusion h
  | cons c r =>
    show (match matchTitleAt (c :: r) with
      | some (p, cl) => some (i, p, cl)
      | none => findTitle r (i + 1)) = _
    rw [h]

theorem hasTitleKw_of_at (s : Str) : ∀ i : Nat, isTitleAt (s.drop i) = true →
    hasTitleKw s = true := by
  induction s with
  | nil =>
    intro i h
    rw [List.drop_nil] at h
    exact absurd h (by decide)
  | cons c r ih =>
    intro i h
    cases i with
    | zero =>
      rw [List.drop_zero] at h
      simp [hasTitleKw, h]
    | succ j =>
      rw [List.drop_succ_cons] at h
      simp [hasTitleKw, ih j h]

theorem trimStr_trimL (x : Str) : trimStr (x.dropWhile isWsChar) = trimStr x := by
  show trimR (trimL (trimL x)) = trimR (trimL x)
  rw [show trimL (trimL x) = trimL x from dropWhile_dropWhile _ _]

/-- The first-match title extraction on an input of the canonical form
`A ++ M ++ X ++ "\n" ++ Y`, where `M` is the `title:` marker in any letter
case (it lowercases to `"title:"`), no earlier position looks like the
marker, and `X` holds at least one non-whitespace character. -/
theorem extractTitleContent_marker (A M X Y : Str)
    (hM : M.map toLowerChar = titleKw)
    (hA : ∀ j, j < A.length →
      isTitleAt ((A ++ (M ++ (X ++ newline :: Y))).drop j) = false)
    (hX1 : newline ∉ X) (hX2 : ∃ c ∈ X, isWsChar c = false) :
    extractTitleContent (A ++ (M ++ (X ++ newline :: Y))) =
      (trimStr X, trimStr (A ++ newline :: Y)) := by
  have h6 : M.length = 6 := marker_length M hM
  obtain ⟨c', t', hct⟩ : ∃ c' t', X.dropWhile isWsChar = c' :: t' := by
    rcases h : X.dropWhile isWsChar with _ | ⟨c', t'⟩
    · exact absurd h (dropWhile_ne_nil_of_exists _ _ hX2)
    · exact ⟨c', t', rfl⟩
  have hXdecomp : X = X.takeWhile isWsChar ++ X.dropWhile isWsChar :=
    (List.takeWhile_append_dropWhile (p := isWsChar) (l := X)).symm
  have hXlen : X.length = (X.takeWhile isWsChar).length + (X.dropWhile isWsChar).length := by
    conv_lhs => rw [hXdecomp]
    rw [List.length_append]
  -- the marker is found at index `A.length`
  have hhas : hasTitleKw (A ++ (M ++ (X ++ newline :: Y))) = true := by
    apply hasTitleKw_of_at _ A.length
    rw [List.drop_left]
    exact isTitleAt_marker M _ hM
  have hfind : findTitle (A ++ (M ++ (X ++ newline :: Y))) 0 =
      some (A.length, (X.takeWhile isWsChar).length, (X.dropWhile isWsChar).length) := by
    rw [findTitle_skip A _ 0 (fun j hj => by rw [matchTitleAt, if_neg]; simp [hA j hj])]
    rw [findTitle_of_match _ _ _ _ (matchTitleAt_marker M X Y hM hX1 hX2)]
    simp
  -- the capture is `X.dropWhile isWsChar`
  have hassoc1 : A ++ (M ++ (X ++ newline :: Y)) =
      (A ++ M ++ X.takeWhile isWsChar) ++ (X.dropWhile isWsChar ++ newline :: Y) := by
    conv_lhs => rw [hXdecomp]
    simp only [List.append_assoc]
  have hlen1 : (A ++ M ++ X.takeWhile isWsChar).length =
      A.length + 6 + (X.takeWhile isWsChar).length := by
    simp only [List.length_append, h6]
  have hcap : ((A ++ (M ++ (X ++ newline :: Y))).drop
        (A.length + 6 + (X.takeWhile isWsChar).length)).take
        (X.dropWhile isWsChar).length = X.dropWhile isWsChar := by
    rw [hassoc1, ← hlen1, List.drop_left]
    rw [show X.dropWhile isWsChar ++ newline :: Y =
      X.dropWhile isWsChar ++ (newline :: Y) from rfl]
    rw [List.take_left]
  have hassoc2 : A ++ (M ++ (X ++ newline :: Y)) =
      (A ++ M ++ X) ++ (newline :: Y) := by
    simp only [List.append_assoc]
  have hlen2 : (A ++ M ++ X).length =
      A.length + 6 + ((X.takeWhile isWsChar).length + (X.dropWhile isWsChar).length) := by
    simp only [List.length_append, h6, ← hXlen]
  have hcontent : (A ++ (M ++ (X ++ newline :: Y))).take A.length ++
      (A ++ (M ++ (X ++ newline :: Y))).drop
        (A.length + 6 + (X.takeWhile isWsChar).length +
          (X.dropWhile isWsChar).length) = A ++ newline :: Y := by
    have htka : (A ++ (M ++ (X ++ newline :: Y))).take A.length = A := by
      rw [List.take_left]
    have hdra : (A ++ (M ++ (X ++ newline :: Y))).drop
        (A.length + 6 + (X.takeWhile isWsChar).length +
          (X.dropWhile isWsChar).length) = newline :: Y := by
      rw [hassoc2]
      rw [show A.length + 6 + (X.takeWhile isWsChar).length +
          (X.dropWhile isWsChar).length =
          (A ++ M ++ X).length from by rw [hlen2]; omega]
      exact List.drop_left _ _
    rw [htka, hdra]
  rw [extractTitleContent, if_pos hhas, hfind]
  simp only [hcap]
  rw [if_pos (show (X.dropWhile isWsChar) ≠ [] from by rw [hct]; simp)]
  rw [hcontent, trimStr_trimL]

theorem defaultSummary_ne_nil (t : Str) : defaultSummary t ≠ [] := by
  intro h
  have h1 := (List.append_eq_nil.mp (List.append_eq_nil.mp h).1).1
  exact absurd h1 (by decide)

theorem needsDefault_false_summary (s : Str) (h : needsDefault s = false) : s ≠ [] := by
  intro hnil
  rw [hnil] at h
  exact absurd h (by decide)

theorem summarizeArticle_err (oracle : Str → Except Str OpenAIResponseModel)
    (t e : Str)
    (h : oracle (buildPrompt (extractTitleContent (truncate8000 t)).1
      (extractTitleContent (truncate8000 t)).2) = .error e) :
    summarizeArticle oracle t = ⟨errorTitle, errorSummaryText, some e⟩ := by
  rw [summarizeArticle]
  rw [h]

theorem summarizeArticle_ok (oracle : Str → Except Str OpenAIResponseModel)
    (t : Str) (resp : OpenAIResponseModel)
    (h : oracle (buildPrompt (extractTitleContent (truncate8000 t)).1
      (extractTitleContent (truncate8000 t)).2) = .ok resp) :
    summarizeArticle oracle t =
      ⟨(extractTitleContent (truncate8000 t)).1,
        if needsDefault (extractSummary resp) then
          defaultSummary (extractTitleContent (truncate8000 t)).1
        else extractSummary resp, none⟩ := by
  rw [summarizeArticle]
  rw [h]

/-! ## Claim theorems for the Summarizer -/

/-- A response carrying a usable `output_text`. -/
def okTextResp : OpenAIResponseModel := ⟨some (str "ok"), none, none, none⟩

/-- C2 counterexample: on the input `"title: "` (marker whose captured group
is the single trailing space) the title capture trims to the empty string,
so `summarizeArticle` returns an empty `title` on a successful call —
refuting the claim that `title` is always non-empty. -/
theorem C2_counterexample :
    (summarizeArticle (fun _ => .ok okTextResp) (str "title: ")).title = [] ∧
    (summarizeArticle (fun _ => .ok okTextResp) (str "title: ")).error = none := by
  constructor <;> decide

/-- C2 (amended): `summarizeArticle` never throws and never returns an empty
summary: on call failure it returns the fixed error record, and on success
with empty or structured-data-echo extraction it substitutes the default
summary discussing the extracted title.  (The `title` field, however, can be
empty when the `title:` capture trims to whitespace — `C2_counterexample`.) -/
theorem C2_summary_never_empty (out : Except Str OpenAIResponseModel) (t : Str) :
    (summarizeArticle (fun _ => out) t).summary ≠ [] ∧
    (∀ e, out = .error e →
      summarizeArticle (fun _ => out) t = ⟨errorTitle, errorSummaryText, some e⟩) ∧
    (∀ r, out = .ok r → needsDefault (extractSummary r) = true →
      (summarizeArticle (fun _ => out) t).summary =
        defaultSummary (extractTitleContent (truncate8000 t)).1) := by
  refine ⟨?_, ?_, ?_⟩
  · rcases out with e | r
    · rw [summarizeArticle_err _ _ e rfl]
      show errorSummaryText ≠ []
      decide
    · rw [summarizeArticle_ok _ _ r rfl]
      by_cases hnd : needsDefault (extractSummary r) = true
      · simpa [hnd] using defaultSummary_ne_nil (extractTitleContent (truncate8000 t)).1
      · have hnd' : needsDefault (extractSummary r) = false := by
          simpa using hnd
        simpa [hnd'] using needsDefault_false_summary _ hnd'
  · intro e h
    rw [h, summarizeArticle_err _ _ e rfl]
  · intro r h hnd
    rw [h, summarizeArticle_ok _ _ r rfl]
    simp [hnd]

/-- A response whose `output_text` is present but empty. -/
def emptyTextResp : OpenAIResponseModel := ⟨some [], none, none, none⟩

/-- Witness for `C2_summary_never_empty`: the error path and the
default-substitution path at concrete inputs. -/
theorem C2_summary_never_empty_witness :
    (summarizeArticle (fun _ => (.error (str "boom") : Except Str OpenAIResponseModel))
      (str "x")).summary ≠ [] ∧
    summarizeArticle (fun _ => (.error (str "boom") : Except Str OpenAIResponseModel))
      (str "x") = ⟨errorTitle, errorSummaryText, some (str "boom")⟩ ∧
    (summarizeArticle (fun _ => (.ok emptyTextResp : Except Str OpenAIResponseModel))
      (str "x")).summary =
      defaultSummary (extractTitleContent (truncate8000 (str "x"))).1 :=
  ⟨(C2_summary_never_empty (.error (str "boom")) (str "x")).1,
    (C2_summary_never_empty (.error (str "boom")) (str "x")).2.1 _ rfl,
    (C2_summary_never_empty (.ok emptyTextResp) (str "x")).2.2 emptyTextResp rfl (by decide)⟩

/-- C4 counterexample: the input `"title: \nBody"` has the form
`"title:" ++ X ++ "\n" ++ Y` with `X = " "` and `Y = "Body"`; the claim
demands title `trim X = ""`, but the greedy `\s*` crosses the line break and
the code extracts `"Body"`. -/
theorem C4_counterexample :
    str "title: \nBody" = titleKw ++ str " " ++ newline :: str "Body" ∧
    (summarizeArticle (fun _ => .ok okTextResp) (str "title: \nBody")).title =
      str "Body" ∧
    trimStr (str " ") = [] := by
  refine ⟨by decide, by decide, by decide⟩

/-- C4 (amended): for inputs of the form `A ++ M ++ X ++ "\n" ++ Y`, where
`M` is the `title:` marker in any letter case (it lowercases to `"title:"`),
no truncation occurs, the marker is first matched at position `A.length`,
and `X` contains at least one non-whitespace character, the extracted title
is `X` trimmed and the content is the input with the matched title text
removed (i.e. `A ++ "\n" ++ Y`, trimmed); for inputs whose (possibly
truncated) text contains no `title:` marker in any case, the title defaults
to "Scholarly Article" and the content is the whole (possibly truncated)
input. -/
theorem C4_title_extraction (A M X Y t : Str) (resp : OpenAIResponseModel)
    (hM : M.map toLowerChar = titleKw)
    (hA : ∀ j, j < A.length →
      isTitleAt ((A ++ (M ++ (X ++ newline :: Y))).drop j) = false)
    (hX1 : newline ∉ X) (hX2 : ∃ c ∈ X, isWsChar c = false)
    (hLen : (A ++ (M ++ (X ++ newline :: Y))).length ≤ 8000)
    (hT : hasTitleKw (truncate8000 t) = false) :
    (extractTitleContent (A ++ (M ++ (X ++ newline :: Y))) =
        (trimStr X, trimStr (A ++ newline :: Y)) ∧
      (summarizeArticle (fun _ => .ok resp) (A ++ (M ++ (X ++ newline :: Y)))).title =
        trimStr X) ∧
    (extractTitleContent (truncate8000 t) = (defaultTitle, truncate8000 t) ∧
      (summarizeArticle (fun _ => .ok resp) t).title = defaultTitle) := by
  have htr : truncate8000 (A ++ (M ++ (X ++ newline :: Y))) =
      A ++ (M ++ (X ++ newline :: Y)) := by
    rw [truncate8000, if_neg (by omega)]
  have hmain := extractTitleContent_marker A M X Y hM hA hX1 hX2
  have hdef : extractTitleContent (truncate8000 t) = (defaultTitle, truncate8000 t) := by
    rw [extractTitleContent, if_neg (by simp [hT])]
  refine ⟨⟨hmain, ?_⟩, hdef, ?_⟩
  · rw [summarizeArticle_ok _ _ resp rfl, htr, hmain]
  · rw [summarizeArticle_ok _ _ resp rfl, hdef]

/-- Witness for `C4_title_extraction` at a concrete input whose marker is
the mixed-case `"Title:"` in the middle of the text, and a concrete
marker-free input. -/
theorem C4_title_extraction_witness :
    extractTitleContent (str "x " ++ (str "Title:" ++ (str " My Paper" ++ newline :: str "Body"))) =
      (str "My Paper", trimStr (str "x " ++ newline :: str "Body")) ∧
    (summarizeArticle (fun _ => .ok okTextResp) (str "hello")).title = defaultTitle := by
  have h := C4_title_extraction (str "x ") (str "Title:") (str " My Paper") (str "Body")
    (str "hello") okTextResp (by decide) (by decide) (by decide) (by decide)
    (by decide) (by decide)
  refine ⟨?_, h.2.2⟩
  rw [h.1.1]
  decide

/-- A response where a high-priority shape (`output_text`) is present but
empty while a lower-priority shape (`choices`) carries non-empty text. -/
def c5Resp : OpenAIResponseModel :=
  ⟨some [], none, none, some [⟨some ⟨some (str "hello")⟩⟩]⟩

/-- C5 counterexample: the extraction chain selects the first *present*
shape, not the first shape with non-empty text: with `output_text = ""` and
`choices` carrying `"hello"`, the summary becomes the default string, not
`"hello"` — refuting the claim as stated. -/
theorem C5_counterexample :
    c5Resp.output_text = some [] ∧
    c5Resp.choices = some [⟨some ⟨some (str "hello")⟩⟩] ∧
    (summarizeArticle (fun _ => .ok c5Resp) (str "abc")).summary =
      defaultSummary defaultTitle ∧
    defaultSummary defaultTitle ≠ str "hello" := by
  refine ⟨rfl, rfl, by decide, by decide⟩

/-- C5 (amended): the extraction tries the supported shapes in the fixed
priority order `output_text`, non-empty `output` array, `text` field,
`choices`, selecting the first shape that is *present* (and well-formed);
the selected shape's text — when non-empty and not a brace-delimited blob —
becomes the summary.  An empty text in a higher-priority present shape is
not skipped; it falls through to the default-summary guard instead. -/
theorem C5_extraction_priority (r : OpenAIResponseModel) (t s : Str) :
    (r.output_text = some s → needsDefault s = false →
      (summarizeArticle (fun _ => .ok r) t).summary = s) ∧
    (r.output_text = none → ∀ o os, r.output = some (o :: os) →
      ∀ items, o.content = some items → firstOutputText items = s →
      needsDefault s = false →
      (summarizeArticle (fun _ => .ok r) t).summary = s) ∧
    (r.output_text = none → (r.output = none ∨ r.output = some []) →
      r.text = some (TextField.strVal s) → needsDefault s = false →
      (summarizeArticle (fun _ => .ok r) t).summary = s) ∧
    (r.output_text = none → (r.output = none ∨ r.output = some []) →
      r.text = none → ∀ c cs m, r.choices = some (c :: cs) →
      c.message = some m → m.content = some s → s ≠ [] →
      needsDefault s = false →
      (summarizeArticle (fun _ => .ok r) t).summary = s) := by
  obtain ⟨ot, op, tx, ch⟩ := r
  refine ⟨?_, ?_, ?_, ?_⟩
  · intro h1 hnd
    subst h1
    rw [summarizeArticle_ok _ _ _ rfl]
    simp [extractSummary, hnd]
  · intro h1 o os h2 items h3 h4 hnd
    subst h1; subst h2
    rw [summarizeArticle_ok _ _ _ rfl]
    simp only [extractSummary, h3, h4, hnd]
    simp
  · intro h1 h2 h3 hnd
    subst h1; subst h3
    rcases h2 with h2 | h2 <;> subst h2 <;>
      · rw [summarizeArticle_ok _ _ _ rfl]
        simp [extractSummary, hnd]
  · intro h1 h2 h3 c cs m h4 h5 h6 hs hnd
    subst h1; subst h3; subst h4
    rcases h2 with h2 | h2 <;> subst h2 <;>
      · rw [summarizeArticle_ok _ _ _ rfl]
        simp only [extractSummary, h5, h6]
        simp [hs, hnd]

/-- A response whose only usable text sits in the legacy `choices` shape. -/
def choicesResp : OpenAIResponseModel :=
  ⟨none, none, none, some [⟨some ⟨some (str "hello")⟩⟩]⟩

/-- Witness for `C5_extraction_priority`: the `output_text` shape and the
legacy `choices` shape at concrete responses. -/
theorem C5_extraction_priority_witness :
    (summarizeArticle (fun _ => .ok okTextResp) (str "abc")).summary = str "ok" ∧
    (summarizeArticle (fun _ => .ok choicesResp) (str "abc")).summary = str "hello" :=
  ⟨(C5_extraction_priority okTextResp (str "abc") (str "ok")).1 rfl (by decide),
    (C5_extraction_priority choicesResp (str "abc") (str "hello")).2.2.2 rfl
      (Or.inl rfl) rfl _ _ _ rfl rfl rfl (by decide) (by decide)⟩

/-! ### Pipeline Orchestrator (src/app/page.tsx) and the API routes

`generateArticle` chains three fetches; each is modelled as an oracle
(`.error` covering a rejected fetch / json failure / non-ok summarize
response, all of which land in the outer catch).  The `Math.random()` picks
are modelled by injected indices taken modulo the list length.  The
`!Array.isArray(scholarData.scholar_results)` branch of page.tsx is
unrepresentable in the typed model (a present `scholar_results` is always a
list here) and is therefore omitted.  The result carries two flags: whether
the Scholar route and the summarize route were invoked. -/

structure ArticleView where
  title : Str
  summary : Str
  link : Option Str
  originalTitle : Option Str
deriving DecidableEq

structure CohereRouteData where
  queries : Option (List Str)
deriving DecidableEq

structure ScholarRouteData where
  scholar_results : Option (List ScholarSearchResult)
deriving DecidableEq

structure SummarizeRouteData where
  title : Option Str
  summary : Option Str
deriving DecidableEq

structure PipelineEnv where
  cohere : List Str → Except Str CohereRouteData
  scholar : Str → Except Str ScholarRouteData
  summarize : Str → Except Str SummarizeRouteData
  randQ : Nat
  randR : Nat

def noQueriesArticle : ArticleView :=
  ⟨str "No Queries Generated",
    str "We couldn't generate any queries based on your interests. Please try with different interests.",
    none, none⟩

def noResultsArticle (q : Str) : ArticleView :=
  ⟨str "No Results Found for: " ++ q,
    str "We couldn't find any scholarly articles for the query: \"" ++ q ++
      str "\". Please try with different interests.",
    none, none⟩

def selectionErrorArticle : ArticleView :=
  ⟨str "Error Processing Results",
    str "We encountered an error while processing the search results. Please try again.",
    none, none⟩

def genericErrorArticle : ArticleView :=
  ⟨str "Error Generating Article",
    str "An error occurred while generating the article. Please try again later.",
    none, none⟩

/-- `selectedQuery.replace(/\*\*/g, '')`. -/
def stripStars : Str → Str
  | '*' :: '*' :: r => stripStars r
  | c :: r => c :: stripStars r
  | [] => []

/-- JS `x || y` for strings (empty string is falsy). -/
def orStr (a b : Str) : Str := if a = [] then b else a

/-- `generateArticle` (page.tsx lines 55–159). -/
def generateArticle (env : PipelineEnv) (interests : List Str) :
    Option ArticleView × Bool × Bool :=
  if interests.length = 0 then (none, false, false)
  else
    match env.cohere interests with
    | .error _ => (some genericErrorArticle, false, false)
    | .ok cd =>
      match cd.queries with
      | none => (some noQueriesArticle, false, false)
      | some [] => (some noQueriesArticle, false, false)
      | some (q0 :: qs) =>
        let selectedQuery := (q0 :: qs).getD (env.randQ % (q0 :: qs).length) []
        let cleanQuery := stripStars selectedQuery
        match env.scholar cleanQuery with
        | .error _ => (some genericErrorArticle, true, false)
        | .ok sd =>
          match sd.scholar_results with
          | none => (some (noResultsArticle cleanQuery), true, false)
          | some [] => (some (noResultsArticle cleanQuery), true, false)
          | some (r0 :: rs) =>
            let sel := (r0 :: rs).getD (env.randR % (r0 :: rs).length) ⟨[], [], [], none⟩
            if sel.title = [] then (some selectionErrorArticle, true, false)
            else
              let articleText := str "title: " ++ sel.title ++
                newline :: sel.snippet.getD []
              match env.summarize articleText with
              | .error _ => (some genericErrorArticle, true, true)
              | .ok sm =>
                (some ⟨orStr (sm.title.getD []) sel.title,
                  orStr (sm.summary.getD []) (str "No summary available."),
                  some sel.title_link, some sel.title⟩, true, true)

/-! ### CohereHelper constructor and the /api/cohere route -/

def cohereKeyError : Str :=
  str "Cohere API key is not configured. Please set COHERE_KEY in .env.local"

def interestsInvalidError : Str := str "Interests must be a non-empty array"

structure QueryGenerationResponse where
  queries : List Str
  error : Option Str
deriving DecidableEq

/-- `CohereHelper.generateSearchQueries`, with the chat call as an oracle on
    the message built from the interests (cohereHelper.ts lines 50–74). -/
def generateSearchQueries (chat : Str → Except Str Str) (interests : List Str) :
    QueryGenerationResponse :=
  match chat (str "Generate 5 Google Scholar search queries based on these interests: " ++
      joinWith (str ", ") interests) with
  | .ok text => ⟨parseQueriesFromResponse text, none⟩
  | .error e => ⟨[], some e⟩

structure CohereRouteResult where
  status : Nat
  queries : Option (List Str)
  error : Option Str
deriving DecidableEq

/-- The `/api/cohere` POST route: validates the interests, constructs
    `CohereHelper` — whose constructor throws when no key is configured
    (cohereHelper.ts lines 30–42), caught by the route and surfaced as a
    500 `{error}` JSON — then returns the generation result.  `envKey`
    models `process.env.COHERE_KEY`; the route passes no config, so the key
    chain `config.apiKey || process.env.COHERE_KEY || ''` reduces to the env
    value or the empty string. -/
def cohereRoutePOST (envKey : Option Str) (chat : Str → Except Str Str)
    (interests : Option (List Str)) : CohereRouteResult :=
  match interests with
  | none => ⟨400, none, some interestsInvalidError⟩
  | some l =>
    if l.length = 0 then ⟨400, none, some interestsInvalidError⟩
    else
      if orStr (envKey.getD []) [] = [] then ⟨500, none, some cohereKeyError⟩
      else
        let r := generateSearchQueries chat l
        ⟨200, some r.queries, r.error⟩

/-! ## Claim theorems for the orchestrator and configuration errors -/

/-- C8: when the Query Generator returns an empty query list, the pipeline
terminates at the no-queries terminal (the explanatory article) and neither
the Search Provider nor the Summarizer is ever invoked. -/
theorem C8_no_queries_terminal (env : PipelineEnv) (interests : List Str)
    (hne : interests ≠ []) (hq : env.cohere interests = .ok ⟨some []⟩) :
    generateArticle env interests = (some noQueriesArticle, false, false) := by
  rw [generateArticle, if_neg (fun h => hne (List.length_eq_zero.mp h)), hq]

/-- An environment whose query generation yields an empty list. -/
def c8Env : PipelineEnv :=
  ⟨fun _ => .ok ⟨some []⟩, fun _ => .ok ⟨none⟩, fun _ => .error [], 0, 0⟩

/-- Witness for `C8_no_queries_terminal`. -/
theorem C8_no_queries_terminal_witness :
    generateArticle c8Env [str "ai"] = (some noQueriesArticle, false, false) :=
  C8_no_queries_terminal c8Env [str "ai"] (by decide) rfl

/-- C9: a missing credential surfaces as an error-carrying result at each
public interface, never as an unhandled exception: the `/api/cohere` route
converts the constructor's configuration error into a 500 `{error}` JSON,
and `searchArticles` returns its synthetic response with the configuration
message in the `error` field. -/
theorem C9_missing_credential (envKey : Option Str) (chat : Str → Except Str Str)
    (l : List Str) (oracle : Str → Nat → Except Str ScrapingDogResponse)
    (q : Str) (p : Nat)
    (hl : l ≠ []) (hkey : envKey.getD [] = []) :
    cohereRoutePOST envKey chat (some l) = ⟨500, none, some cohereKeyError⟩ ∧
    searchArticles oracle [] q p =
      ⟨some ⟨q, str "0 results"⟩, [], some scrapingdogKeyError⟩ := by
  constructor
  · show (if l.length = 0 then _ else _) = _
    rw [if_neg (fun h => hl (List.length_eq_zero.mp h)), hkey,
      if_pos (show orStr [] [] = [] from rfl)]
  · rw [searchArticles, searchArticlesT_nokey oracle [] q p rfl]

/-- A chat oracle for witnesses. -/
def nullChat : Str → Except Str Str := fun _ => .error []

/-- Witness for `C9_missing_credential` at concrete inputs (no key in the
environment). -/
theorem C9_missing_credential_witness :
    cohereRoutePOST none nullChat (some [str "ai"]) =
      ⟨500, none, some cohereKeyError⟩ ∧
    searchArticles nullOracle [] (str "qq") 1 =
      ⟨some ⟨str "qq", str "0 results"⟩, [], some scrapingdogKeyError⟩ :=
  C9_missing_credential none nullChat [str "ai"] nullOracle (str "qq") 1
    (by decide) rfl

end ScholarSummary

